import Mathlib

/-!
Verification of the BOM-to-CAD matching pipeline.

This file gives a shallow embedding of the two core modules of the
repository, the STEP-text parser (record splitting, parameter splitting,
parameter typing, component extraction) and the fuzzy matching engine
(scoring, classification, best-match selection, post-processing), and
proves the stated properties about them.

Modelling conventions:
- Python strings are Lean `String`s; all string manipulation is done on
  the underlying `List Char`, via explicit helpers (`trimChars`, `pyStrip`,
  `pyUpper`, prefix and infix tests on char lists) that mirror the Python
  string methods used by the source (`strip`, `upper`, `startswith`,
  `in`, slicing).
- Python float scores are modelled as rationals (`Rat`); the fuzzy
  similarity calls from the external fuzzywuzzy library are modelled as
  opaque parameters returning a Nat in 0..100, exactly as the source
  consumes them (`fuzz.ratio(a, b) / 100` etc.).
- Python dynamic parameter values are modelled by `PyVal`; note that the
  source encodes an entity reference as an ordinary string carrying a
  "REF:" prefix, so a reference is a `vstr` here as well, which is the
  point of one of the claims below.
-/

namespace BomCad

/-! ## Basic string helpers (models of the Python string methods used) -/

/-- The single-quote character. -/
def sqChar : Char := Char.ofNat 39

/-- The double-quote character. -/
def dqChar : Char := Char.ofNat 34

/-- Model of Python `str.strip()` on the character list. -/
def trimChars (l : List Char) : List Char :=
  ((l.dropWhile Char.isWhitespace).reverse.dropWhile Char.isWhitespace).reverse

/-- Model of Python `str.strip()`. -/
def pyStrip (s : String) : String := ⟨trimChars s.data⟩

/-- Model of Python `str.upper()` (ASCII, which is all the source feeds it). -/
def pyUpper (s : String) : String := ⟨s.data.map Char.toUpper⟩

/-- Model of Python `str.startswith(pre)` on char lists. -/
def pyPrefix (pre l : List Char) : Bool := pre.isPrefixOf l

/-- Model of Python `needle in hay` substring test on char lists. -/
def listInfix (n : List Char) : List Char → Bool
  | [] => n.isEmpty
  | c :: cs => n.isPrefixOf (c :: cs) || listInfix n cs

/-! ## Typed parameter values (`_clean_param`) -/

/-- Dynamic value produced by `_clean_param`: a string (which also covers
raw unconverted tokens and the "REF:"-encoded references), an integer, a
float (kept symbolic as its source text, since no claim consults the
numeric value of a float), or a boolean. -/
inductive PyVal where
  | vstr (s : String)
  | vint (n : Int)
  | vfloat (s : String)
  | vbool (b : Bool)
deriving DecidableEq

/-- Numeric value of a digit string. -/
def digitsToNat (l : List Char) : Nat := l.foldl (fun a c => a * 10 + (c.toNat - 48)) 0

/-- Model of Python `int(s)` on an already-stripped token: optional sign
followed by one or more digits. -/
def parseIntLit (l : List Char) : Option Int :=
  match l with
  | [] => none
  | c :: ds =>
    if c = '+' then
      if ds ≠ [] ∧ ds.all Char.isDigit then some (digitsToNat ds : Int) else none
    else if c = '-' then
      if ds ≠ [] ∧ ds.all Char.isDigit then some (-(digitsToNat ds : Int)) else none
    else
      if (c :: ds).all Char.isDigit then some (digitsToNat (c :: ds) : Int) else none

/-- Exponent suffix of a float literal: `e`/`E`, optional sign, digits. -/
def expTail (l : List Char) : Bool :=
  match l with
  | [] => false
  | e :: rest =>
    (e == 'e' || e == 'E') &&
      (match rest with
       | [] => false
       | s :: rest2 =>
         if s == '+' || s == '-' then !rest2.isEmpty && rest2.all Char.isDigit
         else (s :: rest2).all Char.isDigit)

/-- Model of `float(s)` succeeding on an already-stripped token containing
a dot: optional sign, digits around a single dot (at least one digit),
optional exponent. -/
def isFloatLit (l : List Char) : Bool :=
  let t := match l with
           | c :: r => if c == '+' || c == '-' then r else l
           | [] => l
  let ip := t.takeWhile Char.isDigit
  match t.drop ip.length with
  | '.' :: r2 =>
    let fp := r2.takeWhile Char.isDigit
    let r3 := r2.drop fp.length
    (!ip.isEmpty || !fp.isEmpty) && (r3.isEmpty || expTail r3)
  | _ => false

/-- Embedding of `_clean_param` (step_parser.py lines 139-166): strip, then
unquote / reference-encode / boolean / number / raw, in the source order. -/
def cleanParam (p0 : String) : PyVal :=
  let p := trimChars p0.data
  if p.head? = some sqChar ∧ p.getLast? = some sqChar then .vstr ⟨(p.drop 1).dropLast⟩
  else if p.head? = some dqChar ∧ p.getLast? = some dqChar then .vstr ⟨(p.drop 1).dropLast⟩
  else if p.head? = some '#' then .vstr ("REF:" ++ (⟨trimChars (p.drop 1)⟩ : String))
  else if pyUpper ⟨p⟩ = ".T." ∨ pyUpper ⟨p⟩ = "TRUE" ∨ pyUpper ⟨p⟩ = "T" then .vbool true
  else if pyUpper ⟨p⟩ = ".F." ∨ pyUpper ⟨p⟩ = "FALSE" ∨ pyUpper ⟨p⟩ = "F" then .vbool false
  else if p.contains '.' then
    if isFloatLit p then .vfloat ⟨p⟩ else .vstr ⟨p⟩
  else
    match parseIntLit p with
    | some n => .vint n
    | none => .vstr ⟨p⟩

/-! ## Parameter splitting (`_parse_parameters`) -/

/-- Scan state of the one-pass splitter. -/
structure SplitState where
  params : List String
  current : List Char
  depth : Int
  inQuotes : Bool
deriving DecidableEq

/-- One character step of `_parse_parameters` (step_parser.py lines 112-128):
toggle the quote flag on a single quote, then, outside quotes, track bracket
depth and split on a comma at depth 0. -/
def splitStep (st : SplitState) (c : Char) : SplitState :=
  let inQ := if c = sqChar then !st.inQuotes else st.inQuotes
  let cur : String := ⟨trimChars st.current⟩
  if inQ = false then
    if c = '(' ∨ c = '[' then
      { st with inQuotes := inQ, depth := st.depth + 1, current := st.current ++ [c] }
    else if c = ')' ∨ c = ']' then
      { st with inQuotes := inQ, depth := st.depth - 1, current := st.current ++ [c] }
    else if c = ',' ∧ st.depth = 0 then
      { st with inQuotes := inQ, params := st.params ++ [cur], current := [] }
    else { st with inQuotes := inQ, current := st.current ++ [c] }
  else { st with inQuotes := inQ, current := st.current ++ [c] }

/-- Embedding of `_parse_parameters` (step_parser.py lines 100-137). -/
def parseParameters (s : String) : List PyVal :=
  if (⟨trimChars s.data⟩ : String) = "" then []
  else
    let st := s.data.foldl splitStep ⟨[], [], 0, false⟩
    let ps := if (⟨trimChars st.current⟩ : String) ≠ "" then
                st.params ++ [(⟨trimChars st.current⟩ : String)]
              else st.params
    ps.map cleanParam

/-! ## Entity parsing (`_parse_entity`) -/

/-- Parsed STEP entity. -/
structure Entity where
  id : String
  type : String
  parameters : List PyVal
  raw : String
deriving DecidableEq

/-- Leading character class of the entity-type regex. -/
def isIdentStart (c : Char) : Bool := c.isAlpha || c = '_'

/-- Continuation character class of the entity-type regex. -/
def isIdentChar (c : Char) : Bool := c.isAlpha || c.isDigit || c = '_'

/-- Model of `re.search(r"\((.*)\)", s, re.DOTALL)`: the group spans from
the first opening parenthesis to the last closing parenthesis after it. -/
def extractParenGroup (l : List Char) : Option (List Char) :=
  match l.dropWhile (fun c => c ≠ '(') with
  | [] => none
  | _ :: rest =>
    match rest.reverse.dropWhile (fun c => c ≠ ')') with
    | [] => none
    | _ :: revInner => some revInner.reverse

/-- Embedding of `_parse_entity` (step_parser.py lines 68-98). -/
def parseEntity (id0 d : String) : Option Entity :=
  if d = "" then none
  else
    match d.data with
    | [] => none
    | c :: _ =>
      if isIdentStart c then
        let tyChars := d.data.takeWhile isIdentChar
        let params := match extractParenGroup d.data with
          | some inner => parseParameters ⟨inner⟩
          | none => []
        some ⟨id0, pyUpper ⟨tyChars⟩, params, "#" ++ id0 ++ " = " ++ d ++ ";"⟩
      else none

/-! ## Claim C3: the splitter respects quotes and bracket depth -/

/-- Single-quote string, for building test inputs without quote literals. -/
def sq : String := ⟨[sqChar]⟩

/-- The body `FOO('a,b', 1)`. -/
def fooQuotedBody : String := "FOO(" ++ sq ++ "a,b" ++ sq ++ ", 1)"

/-- C3: a comma is a split point (the accumulated parameter list grows)
exactly when the scanner is at depth 0 and not inside a single-quoted span;
consequently `FOO('a,b', 1)` parses to the two parameters `["a,b", 1]` and
`FOO((1,2),3)` parses to exactly two top-level parameters. -/
theorem c3_comma_split_only_at_depth0_outside_quotes :
    (∀ (st : SplitState) (c : Char),
      (splitStep st c).params.length =
        st.params.length +
          (if c = ',' ∧ st.depth = 0 ∧ st.inQuotes = false then 1 else 0)) ∧
    parseEntity "1" fooQuotedBody =
      some ⟨"1", "FOO", [PyVal.vstr "a,b", PyVal.vint 1],
            "#1 = " ++ fooQuotedBody ++ ";"⟩ ∧
    (parseEntity "2" "FOO((1,2),3)").map (fun e => e.parameters) =
      some [PyVal.vstr "(1,2)", PyVal.vint 3] := by
  refine ⟨?_, by decide, by decide⟩
  intro st c
  by_cases hq : c = sqChar
  · subst hq
    have hne : ¬ (sqChar = ',') := by decide
    simp only [splitStep]
    split_ifs with h1 h2 h3 h4 <;> simp_all
  · simp only [splitStep, if_neg hq]
    by_cases hiq : st.inQuotes
    · have : ¬ (c = ',' ∧ st.depth = 0 ∧ st.inQuotes = false) := by
        intro h; rw [h.2.2] at hiq; exact Bool.noConfusion hiq
      simp [hiq, this]
    · simp only [Bool.not_eq_true] at hiq
      simp only [hiq]
      split_ifs with h1 h2 h3 <;> simp_all

/-! ## Component extraction (`extract_step_components` and helpers) -/

/-- Extracted component. The `footprint`/`context` fields are only present
on components produced by the fallback path, mirroring the Python dicts. -/
structure Component where
  id : String
  type : String
  part_number : String
  description : String
  footprint : Option String
  context : Option String
deriving DecidableEq

/-- Python truthiness of a string: nonempty. -/
def pyTruthy (s : String) : Bool := !s.data.isEmpty

/-- The scan condition of `_extract_from_entity`: a nonempty string value
not carrying the "REF:" reference encoding. -/
def isCand (s : String) : Bool := pyTruthy s && !(pyPrefix "REF:".data s.data)

/-- Second part-number pattern `^[0-9\-]+[A-Z]?$`. -/
def pattNumDash (l : List Char) : Bool :=
  (l.all fun c => c.isDigit || c = '-') ||
  (match l.getLast? with
   | some c => c.isUpper && !l.dropLast.isEmpty && l.dropLast.all (fun c2 => c2.isDigit || c2 = '-')
   | none => false)

/-- Third part-number pattern `^[A-Z]{2,}\d+` (not anchored at the end). -/
def pattLettersDigits (l : List Char) : Bool :=
  let u := l.takeWhile Char.isUpper
  decide (2 ≤ u.length) &&
    (match l.drop u.length with
     | c :: _ => c.isDigit
     | [] => false)

/-- Embedding of `_looks_like_part_number` (step_parser.py lines 228-244). -/
def looksLikePN (s : String) : Bool :=
  let l := s.data
  if l.length < 4 then false
  else
    (l.all fun c => c.isUpper || c.isDigit || c = '-' || c = '_' || c = '/' || c = '.') ||
    pattNumDash l || pattLettersDigits l

/-- Embedding of `_looks_like_description` (step_parser.py lines 246-255). -/
def looksLikeDesc (s : String) : Bool :=
  let l := s.data
  if l.length < 10 then false
  else l.contains ' ' && decide (5 < l.countP Char.isAlpha)

/-- The parameter scan of `_extract_from_entity` (step_parser.py lines
194-201): later qualifying parameters overwrite earlier ones, and the
part-number heuristic is tried before the description heuristic. -/
def extractLoop : String → String → List PyVal → String × String
  | pn, ds, [] => (pn, ds)
  | pn, ds, p :: ps =>
    match p with
    | .vstr s =>
      if isCand s then
        if looksLikePN s then extractLoop s ds ps
        else if looksLikeDesc s then extractLoop pn s ps
        else extractLoop pn ds ps
      else extractLoop pn ds ps
    | _ => extractLoop pn ds ps

/-- Embedding of `_extract_from_entity` (step_parser.py lines 188-211). -/
def extractFromEntity (e : Entity) : Option Component :=
  let r := extractLoop "" "" e.parameters
  if r.1 ≠ "" ∨ r.2 ≠ "" then some ⟨e.id, e.type, r.1, r.2, none, none⟩ else none

/-- Model of Python slicing `s[:n]`. -/
def pyTakeStr (n : Nat) (s : String) : String := ⟨s.data.take n⟩

/-- The parameter scan of `_create_basic_component` (step_parser.py lines
215-226): the first string parameter longer than 3 characters that is not
a "REF:"-encoded reference becomes the part number, truncated to 50. -/
def createBasicLoop (e : Entity) : List PyVal → Option Component
  | [] => none
  | p :: ps =>
    match p with
    | .vstr s =>
      if decide (3 < s.data.length) && !(pyPrefix "REF:".data s.data) then
        some ⟨e.id, e.type, pyTakeStr 50 s, e.type ++ " component", some "", some ""⟩
      else createBasicLoop e ps
    | _ => createBasicLoop e ps

/-- Embedding of `_create_basic_component`. -/
def createBasicComponent (e : Entity) : Option Component := createBasicLoop e e.parameters

/-- Embedding of `extract_step_components` (step_parser.py lines 168-186):
primary pass over all entities; the fallback pass runs only when the
primary pass found nothing, and looks at the first 50 entities only. -/
def extractStepComponents (es : List Entity) : List Component :=
  let primary := es.filterMap extractFromEntity
  if primary = [] then (es.take 50).filterMap createBasicComponent else primary

/-! Specification predicates for the extraction heuristics. -/

/-- A parameter qualifying for the part-number role. -/
def qPN : PyVal → Bool
  | .vstr s => isCand s && looksLikePN s
  | _ => false

/-- A parameter qualifying for the description role (the part-number
heuristic is consulted first, so it must fail here). -/
def qDesc : PyVal → Bool
  | .vstr s => isCand s && !looksLikePN s && looksLikeDesc s
  | _ => false

/-- A parameter qualifying for the fallback pass. -/
def qBasic : PyVal → Bool
  | .vstr s => decide (3 < s.data.length) && !(pyPrefix "REF:".data s.data)
  | _ => false

/-- String payload of a value. -/
def strOf : PyVal → String
  | .vstr s => s
  | _ => ""

/-- The last parameter of `l` satisfying `q`, or the empty string. -/
def lastQual (q : PyVal → Bool) (l : List PyVal) : String :=
  match l.reverse.find? q with
  | some v => strOf v
  | none => ""

lemma strEta (s : String) : (⟨s.data⟩ : String) = s := by cases s; rfl

lemma data_mk (l : List Char) : (⟨l⟩ : String).data = l := rfl

lemma bool_and_left {a b : Bool} (h : (a && b) = true) : a = true := by
  cases a
  · exact Bool.noConfusion h
  · rfl

lemma bool_and_right {a b : Bool} (h : (a && b) = true) : b = true := by
  cases a
  · exact Bool.noConfusion h
  · exact h

lemma bool_not_true {b : Bool} (h : (!b) = true) : b = false := by
  cases b
  · rfl
  · exact absurd h (by decide)

lemma isCand_ne_empty {s : String} (h : isCand s = true) : s ≠ "" := by
  have h1 : (!s.data.isEmpty) = true := bool_and_left h
  have h2 : s.data.isEmpty = false := bool_not_true h1
  intro he; subst he; exact Bool.noConfusion h2

lemma isCand_no_ref {s : String} (h : isCand s = true) :
    pyPrefix "REF:".data s.data = false :=
  bool_not_true (bool_and_right h)

lemma qPN_str_ne (v : PyVal) (h : qPN v = true) : strOf v ≠ "" := by
  cases v with
  | vstr s => exact isCand_ne_empty (bool_and_left h)
  | vint n => exact Bool.noConfusion h
  | vfloat s => exact Bool.noConfusion h
  | vbool b => exact Bool.noConfusion h

lemma qDesc_str_ne (v : PyVal) (h : qDesc v = true) : strOf v ≠ "" := by
  cases v with
  | vstr s => exact isCand_ne_empty (bool_and_left (bool_and_left h))
  | vint n => exact Bool.noConfusion h
  | vfloat s => exact Bool.noConfusion h
  | vbool b => exact Bool.noConfusion h

lemma lastQual_nil (q : PyVal → Bool) : lastQual q [] = "" := rfl

lemma lastQual_cons (q : PyVal → Bool) (hq : ∀ v, q v = true → strOf v ≠ "")
    (p : PyVal) (ps : List PyVal) :
    lastQual q (p :: ps) =
      if lastQual q ps = "" then (if q p then strOf p else "") else lastQual q ps := by
  unfold lastQual
  rw [List.reverse_cons, List.find?_append]
  cases h : ps.reverse.find? q with
  | none =>
    simp only [Option.none_or]
    cases hp : q p with
    | true => simp [List.find?, hp]
    | false => simp [List.find?, hp]
  | some v =>
    have hv := List.find?_some h
    have := hq v hv
    simp [Option.or, this]

lemma extractLoop_eq (l : List PyVal) : ∀ pn ds,
    extractLoop pn ds l =
      ((if lastQual qPN l = "" then pn else lastQual qPN l),
       (if lastQual qDesc l = "" then ds else lastQual qDesc l)) := by
  induction l with
  | nil => intro pn ds; simp [extractLoop, lastQual_nil]
  | cons p ps ih =>
    intro pn ds
    rw [lastQual_cons qPN qPN_str_ne, lastQual_cons qDesc qDesc_str_ne]
    cases p with
    | vstr s =>
      by_cases hc : isCand s = true
      · by_cases hpn : looksLikePN s = true
        · have hqp : qPN (.vstr s) = true := by simp [qPN, hc, hpn]
          have hqd : qDesc (.vstr s) = false := by simp [qDesc, hpn]
          have hs : s ≠ "" := qPN_str_ne _ hqp
          simp only [extractLoop, hc, hpn, if_true, ih s ds, hqp, hqd, strOf]
          by_cases h1 : lastQual qPN ps = "" <;> by_cases h2 : lastQual qDesc ps = "" <;>
            simp [h1, h2, hs]
        · by_cases hds : looksLikeDesc s = true
          · have hqp : qPN (.vstr s) = false := by simp [qPN, hpn]
            have hqd : qDesc (.vstr s) = true := by simp [qDesc, hc, hpn, hds]
            have hs : s ≠ "" := qDesc_str_ne _ hqd
            simp only [extractLoop, hc, hpn, hds, if_true, if_false, ih pn s, hqp, hqd, strOf]
            by_cases h1 : lastQual qPN ps = "" <;> by_cases h2 : lastQual qDesc ps = "" <;>
              simp [h1, h2, hs]
          · have hqp : qPN (.vstr s) = false := by simp [qPN, hpn]
            have hqd : qDesc (.vstr s) = false := by simp [qDesc, hds]
            simp only [extractLoop, hc, hpn, hds, if_true, if_false, ih pn ds, hqp, hqd]
            by_cases h1 : lastQual qPN ps = "" <;> by_cases h2 : lastQual qDesc ps = "" <;>
              simp [h1, h2]
      · have hc2 : isCand s = false := by simpa using hc
        have hqp : qPN (.vstr s) = false := by simp [qPN, hc2]
        have hqd : qDesc (.vstr s) = false := by simp [qDesc, hc2]
        simp only [extractLoop, hc2, if_false, Bool.false_eq_true, ih pn ds, hqp, hqd]
        by_cases h1 : lastQual qPN ps = "" <;> by_cases h2 : lastQual qDesc ps = "" <;>
          simp [h1, h2]
    | vint n =>
      simp only [extractLoop, ih pn ds, qPN, qDesc]
      by_cases h1 : lastQual qPN ps = "" <;> by_cases h2 : lastQual qDesc ps = "" <;>
        simp [h1, h2]
    | vfloat s =>
      simp only [extractLoop, ih pn ds, qPN, qDesc]
      by_cases h1 : lastQual qPN ps = "" <;> by_cases h2 : lastQual qDesc ps = "" <;>
        simp [h1, h2]
    | vbool b =>
      simp only [extractLoop, ih pn ds, qPN, qDesc]
      by_cases h1 : lastQual qPN ps = "" <;> by_cases h2 : lastQual qDesc ps = "" <;>
        simp [h1, h2]

lemma if_empty_self (a : String) : (if a = "" then "" else a) = a := by
  split <;> simp_all

lemma extractLoop_empty_init (l : List PyVal) :
    extractLoop "" "" l = (lastQual qPN l, lastQual qDesc l) := by
  rw [extractLoop_eq, if_empty_self, if_empty_self]

lemma extractFromEntity_eq (e : Entity) :
    extractFromEntity e =
      (if lastQual qPN e.parameters = "" ∧ lastQual qDesc e.parameters = "" then none
       else some ⟨e.id, e.type, lastQual qPN e.parameters, lastQual qDesc e.parameters,
                  none, none⟩) := by
  unfold extractFromEntity
  rw [extractLoop_empty_init]
  by_cases h1 : lastQual qPN e.parameters = "" <;>
    by_cases h2 : lastQual qDesc e.parameters = "" <;> simp [h1, h2]

/-! ## Claim C9: single role per parameter, last qualifying match wins -/

/-- C9: in the primary extraction pass, no parameter can qualify for both
roles (the part-number heuristic is evaluated first and excludes the
description role), the field values are the last qualifying parameter in
scan order for each role, and an entity yields a component exactly when at
least one field ends up non-empty. -/
theorem c9_last_match_wins_single_role :
    (∀ v : PyVal, qPN v = false ∨ qDesc v = false) ∧
    (∀ e : Entity,
      extractFromEntity e =
        (if lastQual qPN e.parameters = "" ∧ lastQual qDesc e.parameters = "" then none
         else some ⟨e.id, e.type, lastQual qPN e.parameters, lastQual qDesc e.parameters,
                    none, none⟩)) := by
  constructor
  · intro v
    cases v with
    | vstr s =>
      by_cases h : looksLikePN s = true
      · right; simp [qDesc, h]
      · left; simp [qPN]; intro _; simpa using h
    | vint n => left; rfl
    | vfloat s => left; rfl
    | vbool b => left; rfl
  · exact extractFromEntity_eq

/-! ## Claim C8: the fallback pass -/

lemma createBasicLoop_eq (e : Entity) (l : List PyVal) :
    createBasicLoop e l = (l.find? qBasic).map (fun v =>
      ⟨e.id, e.type, pyTakeStr 50 (strOf v), e.type ++ " component", some "", some ""⟩) := by
  induction l with
  | nil => rfl
  | cons p ps ih =>
    cases p with
    | vstr s =>
      by_cases h : (decide (3 < s.data.length) && !(pyPrefix "REF:".data s.data)) = true
      · have hq : qBasic (.vstr s) = true := h
        rw [List.find?_cons_of_pos _ hq]
        simp only [createBasicLoop]
        rw [if_pos h]
        rfl
      · rw [List.find?_cons_of_neg _ (show ¬ qBasic (.vstr s) = true from h)]
        simp only [createBasicLoop]
        rw [if_neg h]
        exact ih
    | vint n =>
      rw [List.find?_cons_of_neg _ (fun hh => Bool.noConfusion (show false = true from hh))]
      exact ih
    | vfloat s =>
      rw [List.find?_cons_of_neg _ (fun hh => Bool.noConfusion (show false = true from hh))]
      exact ih
    | vbool b =>
      rw [List.find?_cons_of_neg _ (fun hh => Bool.noConfusion (show false = true from hh))]
      exact ih

/-- C8: the fallback path runs exactly when the primary pass yields zero
components, considers only the first 50 entities, and emits, per entity,
a component built from the first long-enough non-reference string
parameter: the part number is that string truncated to 50 characters, the
description is `"<entity type> component"`, and footprint/context are
empty strings. -/
theorem c8_fallback_pass :
    ∀ es : List Entity,
      (es.filterMap extractFromEntity ≠ [] →
        extractStepComponents es = es.filterMap extractFromEntity) ∧
      (es.filterMap extractFromEntity = [] →
        extractStepComponents es = (es.take 50).filterMap createBasicComponent) ∧
      (∀ e : Entity,
        createBasicComponent e = (e.parameters.find? qBasic).map (fun v =>
          ⟨e.id, e.type, pyTakeStr 50 (strOf v), e.type ++ " component",
           some "", some ""⟩)) := by
  intro es
  refine ⟨?_, ?_, ?_⟩
  · intro h; simp [extractStepComponents, h]
  · intro h; simp [extractStepComponents, h]
  · intro e; exact createBasicLoop_eq e e.parameters

/-- An entity on which the primary heuristics find nothing. -/
def entPlain : Entity := ⟨"7", "SHAPE", [PyVal.vstr "abcd?"], "#7 = SHAPE(ignored);"⟩

/-- Witness for C8: on a concrete entity list where the primary pass finds
nothing, the fallback pass produces the described component. -/
theorem c8_fallback_pass_witness :
    extractStepComponents [entPlain] =
      [⟨"7", "SHAPE", "abcd?", "SHAPE component", some "", some ""⟩] := by
  have h := (c8_fallback_pass [entPlain]).2.1 (by decide)
  rw [h]; decide

/-! ## Claim C10: "REF:"-encoded references are skipped everywhere -/

lemma trimChars_quoted (m : List Char) :
    trimChars (sqChar :: (m ++ [sqChar])) = sqChar :: (m ++ [sqChar]) := by
  have hw : Char.isWhitespace sqChar = false := by decide
  unfold trimChars
  rw [List.dropWhile_cons_of_neg (by simp [hw])]
  have h2 : (sqChar :: (m ++ [sqChar])).reverse = sqChar :: (m.reverse ++ [sqChar]) := by
    simp
  rw [h2, List.dropWhile_cons_of_neg (by simp [hw])]
  simp

lemma lastQual_no_ref (q : PyVal → Bool)
    (hq : ∀ v, q v = true → pyPrefix "REF:".data (strOf v).data = false)
    (l : List PyVal) : pyPrefix "REF:".data (lastQual q l).data = false := by
  unfold lastQual
  cases h : l.reverse.find? q with
  | none => decide
  | some v => exact hq v (List.find?_some h)

lemma qPN_no_ref (v : PyVal) (h : qPN v = true) :
    pyPrefix "REF:".data (strOf v).data = false := by
  cases v with
  | vstr s => exact isCand_no_ref (bool_and_left h)
  | vint n => exact Bool.noConfusion h
  | vfloat s => exact Bool.noConfusion h
  | vbool b => exact Bool.noConfusion h

lemma qDesc_no_ref (v : PyVal) (h : qDesc v = true) :
    pyPrefix "REF:".data (strOf v).data = false := by
  cases v with
  | vstr s => exact isCand_no_ref (bool_and_left (bool_and_left h))
  | vint n => exact Bool.noConfusion h
  | vfloat s => exact Bool.noConfusion h
  | vbool b => exact Bool.noConfusion h

lemma pyPrefix_take_false {pre l : List Char} {n : Nat}
    (h : pyPrefix pre l = false) : pyPrefix pre (l.take n) = false := by
  cases hp : pyPrefix pre (l.take n) with
  | false => rfl
  | true =>
    exfalso
    have h1 : pre <+: l.take n := List.isPrefixOf_iff_prefix.mp hp
    have h2 : pre <+: l := h1.trans (List.take_prefix n l)
    rw [← List.isPrefixOf_iff_prefix] at h2
    rw [pyPrefix] at h
    rw [h2] at h
    exact Bool.noConfusion h

/-- C10: references are encoded as plain strings with a "REF:" prefix, so a
genuinely quoted string whose inner text starts with "REF:" produces the
very same value as a reference parameter does, and neither extraction pass
can ever place a "REF:"-prefixed string into a part number or description. -/
theorem c10_ref_prefix_indistinguishable :
    (∀ t : String, cleanParam ⟨sqChar :: (t.data ++ [sqChar])⟩ = PyVal.vstr t) ∧
    cleanParam "#12" = PyVal.vstr "REF:12" ∧
    (∀ (e : Entity) (c : Component), extractFromEntity e = some c →
      pyPrefix "REF:".data c.part_number.data = false ∧
      pyPrefix "REF:".data c.description.data = false) ∧
    (∀ (e : Entity) (c : Component), createBasicComponent e = some c →
      pyPrefix "REF:".data c.part_number.data = false) := by
  refine ⟨?_, by decide, ?_, ?_⟩
  · intro t
    have hl : (sqChar :: (t.data ++ [sqChar])).getLast? = some sqChar := by
      rw [show sqChar :: (t.data ++ [sqChar]) = (sqChar :: t.data) ++ [sqChar] from rfl]
      exact List.getLast?_concat _
    simp only [cleanParam, data_mk, trimChars_quoted]
    rw [if_pos ⟨rfl, hl⟩]
    have hd : ((sqChar :: (t.data ++ [sqChar])).drop 1).dropLast = t.data := by
      rw [show (sqChar :: (t.data ++ [sqChar])).drop 1 = t.data ++ [sqChar] from rfl]
      exact List.dropLast_concat
    rw [hd, strEta]
  · intro e c h
    rw [extractFromEntity_eq] at h
    by_cases hc : lastQual qPN e.parameters = "" ∧ lastQual qDesc e.parameters = ""
    · rw [if_pos hc] at h; exact Option.noConfusion h
    · rw [if_neg hc] at h
      have hc2 := Option.some.inj h
      subst hc2
      exact ⟨lastQual_no_ref qPN qPN_no_ref e.parameters,
             lastQual_no_ref qDesc qDesc_no_ref e.parameters⟩
  · intro e c h
    rw [createBasicComponent, createBasicLoop_eq] at h
    cases hf : e.parameters.find? qBasic with
    | none => rw [hf] at h; exact Option.noConfusion h
    | some v =>
      rw [hf] at h
      have hv := List.find?_some hf
      have hc2 := Option.some.inj h
      subst hc2
      have hnr : pyPrefix "REF:".data (strOf v).data = false := by
        cases v with
        | vstr s => exact bool_not_true (bool_and_right hv)
        | vint n => exact Bool.noConfusion hv
        | vfloat s => exact Bool.noConfusion hv
        | vbool b => exact Bool.noConfusion hv
      exact pyPrefix_take_false hnr

/-- An entity carrying a "REF:"-encoded reference and a plausible part number. -/
def entRef : Entity := ⟨"3", "PART", [PyVal.vstr "REF:9", PyVal.vstr "BRK-100-A"], ""⟩

/-- The component extracted from `entRef`. -/
def compRef : Component := ⟨"3", "PART", "BRK-100-A", "", none, none⟩

/-- Witness for C10: on a concrete entity whose parameters include a
"REF:"-encoded reference, the extracted fields do not carry the prefix. -/
theorem c10_ref_prefix_indistinguishable_witness :
    cleanParam (sq ++ "REF:9" ++ sq) = PyVal.vstr "REF:9" ∧
    pyPrefix "REF:".data compRef.part_number.data = false := by
  constructor
  · have h := c10_ref_prefix_indistinguishable.1 "REF:9"
    have he : (⟨sqChar :: ("REF:9".data ++ [sqChar])⟩ : String) = sq ++ "REF:9" ++ sq := by
      decide
    rw [he] at h
    exact h
  · exact (c10_ref_prefix_indistinguishable.2.2.1 entRef compRef (by decide)).1

/-! ## The matching engine (`matcher.py`) -/

/-- A pre-processed BOM row (matcher.py `_preprocess_bom`). -/
structure BomRow where
  PartNumber : String
  Description : String
deriving DecidableEq

/-- The two fields of a STEP component the matcher consults. -/
structure StepComp where
  part_number : String
  description : String
deriving DecidableEq

/-- The normalization `str(x).upper().strip()` applied by both
`_preprocess_bom` and `_preprocess_step`. -/
def normalizeStr (s : String) : String := pyStrip (pyUpper s)

/-- Row normalization (matcher.py lines 55-56). -/
def normRow (r : BomRow) : BomRow := ⟨normalizeStr r.PartNumber, normalizeStr r.Description⟩

/-- Component normalization (matcher.py lines 68-69). -/
def normComp (c : StepComp) : StepComp :=
  ⟨normalizeStr c.part_number, normalizeStr c.description⟩

/-- Python `max(scores)` guarded by `if scores else 0.0` (matcher.py line 109). -/
def pyMax : List ℚ → ℚ
  | [] => 0
  | x :: xs => xs.foldl max x

/-- Embedding of `_calculate_enhanced_score` (matcher.py lines 73-112).
The fuzzywuzzy similarity calls `fuzz.ratio`, `fuzz.partial_ratio` and
`fuzz.token_set_ratio` are external library functions; they are taken as
parameters `fr`, `fpr`, `ftsr` returning a Nat (the library returns an
integer in 0..100), exactly as the source consumes them. -/
def calcEnhancedScore (fr fpr ftsr : String → String → Nat)
    (row : BomRow) (comp : StepComp) : ℚ :=
  if row.PartNumber ≠ "" ∧ comp.part_number ≠ "" ∧ row.PartNumber = comp.part_number then 1
  else
    let s1 : List ℚ :=
      if row.PartNumber ≠ "" ∧ comp.part_number ≠ "" then
        [(fr row.PartNumber comp.part_number : ℚ) / 100]
      else []
    let s2 : List ℚ :=
      if row.PartNumber ≠ "" ∧ comp.description ≠ "" ∧
          listInfix row.PartNumber.data comp.description.data = true then
        [(8 : ℚ) / 10]
      else []
    let s3 : List ℚ :=
      if row.Description ≠ "" ∧ comp.description ≠ "" then
        [(fpr row.Description comp.description : ℚ) / 100 * (7 / 10)]
      else []
    let s4 : List ℚ :=
      if row.Description ≠ "" ∧ comp.description ≠ "" then
        [(ftsr row.Description comp.description : ℚ) / 100 * (6 / 10)]
      else []
    pyMax (s1 ++ s2 ++ s3 ++ s4)

/-- Match quality classification. -/
inductive MatchType where
  | ExactMatch
  | StrongMatch
  |  PartialMatch
  | WeakOrNoMatch
  | NoMatch
deriving DecidableEq

/-- Embedding of `_get_match_type` (matcher.py lines 114-128). -/
def getMatchType (score : ℚ) : MatchType :=
  if score ≥ 95 / 100 then .ExactMatch
  else if score ≥ 8 / 10 then .StrongMatch
  else if score ≥ 6 / 10 then .PartialMatch
  else .WeakOrNoMatch

/-- One row of the matching output before post-processing. -/
structure MatchResult where
  BOM_PartNumber : String
  BOM_Description : String
  STEP_PartNumber : Option String
  STEP_Description : Option String
  Match_Score : ℚ
  Match_Type : MatchType
deriving DecidableEq

/-- The best-match fold of `match_components` (matcher.py lines 17-26):
start from no match and score 0.0, replace only on a strictly greater
score. -/
def bestLoop (s : StepComp → ℚ) :
    List StepComp → Option StepComp × ℚ → Option StepComp × ℚ
  | [], acc => acc
  | c :: cs, acc => bestLoop s cs (if s c > acc.2 then (some c, s c) else acc)

/-- One row of `match_components` (matcher.py lines 17-39). -/
def matchRow (fr fpr ftsr : String → String → Nat) (comps : List StepComp)
    (row : BomRow) : MatchResult :=
  let r := bestLoop (calcEnhancedScore fr fpr ftsr row) comps (none, 0)
  match r.1 with
  | some c => ⟨row.PartNumber, row.Description, some c.part_number, some c.description,
               r.2, getMatchType r.2⟩
  | none => ⟨row.PartNumber, row.Description, none, none, 0, .NoMatch⟩

/-! ## Claim C1: exact part-number equality short-circuits to 1.0 -/

/-- C1: for a normalized row and component with non-empty, equal part
numbers, the score is exactly 1 for every possible behaviour of the three
fuzzy similarity functions and every description content, and the result
classifies as an exact match. -/
theorem c1_equal_part_numbers_score_one (fr fpr ftsr : String → String → Nat)
    (row : BomRow) (comp : StepComp)
    (h1 : (normRow row).PartNumber ≠ "")
    (h2 : (normRow row).PartNumber = (normComp comp).part_number) :
    calcEnhancedScore fr fpr ftsr (normRow row) (normComp comp) = 1 ∧
    getMatchType (calcEnhancedScore fr fpr ftsr (normRow row) (normComp comp)) =
      MatchType.ExactMatch := by
  have hc : (normComp comp).part_number ≠ "" := h2 ▸ h1
  have hs : calcEnhancedScore fr fpr ftsr (normRow row) (normComp comp) = 1 := by
    unfold calcEnhancedScore
    rw [if_pos ⟨h1, hc, h2⟩]
  refine ⟨hs, ?_⟩
  rw [hs]
  unfold getMatchType
  rw [if_pos (by norm_num)]

/-- A trivial stand-in for a fuzzy similarity function. -/
def frZero : String → String → Nat := fun _ _ => 0

/-- Witness for C1 on concrete data (the part numbers agree only after
upper-casing and stripping, and the descriptions are unrelated). -/
theorem c1_equal_part_numbers_score_one_witness :
    calcEnhancedScore frZero frZero frZero (normRow ⟨"abc-1 ", "left desc"⟩)
        (normComp ⟨"ABC-1", "right desc"⟩) = 1 ∧
    getMatchType (calcEnhancedScore frZero frZero frZero (normRow ⟨"abc-1 ", "left desc"⟩)
        (normComp ⟨"ABC-1", "right desc"⟩)) = MatchType.ExactMatch :=
  c1_equal_part_numbers_score_one frZero frZero frZero ⟨"abc-1 ", "left desc"⟩
    ⟨"ABC-1", "right desc"⟩ (by decide) (by decide)

/-! ## Claim C2: score bounds and threshold classification -/

lemma foldl_max_le {c : ℚ} :
    ∀ (xs : List ℚ) (a : ℚ), a ≤ c → (∀ x ∈ xs, x ≤ c) → xs.foldl max a ≤ c := by
  intro xs
  induction xs with
  | nil => intro a ha _; exact ha
  | cons x xs ih =>
    intro a ha hx
    exact ih (max a x) (max_le ha (hx x (List.mem_cons_self x xs)))
      (fun y hy => hx y (List.mem_cons_of_mem x hy))

lemma le_foldl_max : ∀ (xs : List ℚ) (a : ℚ), a ≤ xs.foldl max a := by
  intro xs
  induction xs with
  | nil => intro a; exact le_refl a
  | cons x xs ih => intro a; exact (le_max_left a x).trans (ih (max a x))

lemma pyMax_le {l : List ℚ} {c : ℚ} (h0 : 0 ≤ c) (h : ∀ x ∈ l, x ≤ c) : pyMax l ≤ c := by
  cases l with
  | nil => exact h0
  | cons x xs =>
    exact foldl_max_le xs x (h x (List.mem_cons_self x xs))
      (fun y hy => h y (List.mem_cons_of_mem x hy))

lemma pyMax_nonneg {l : List ℚ} (h : ∀ x ∈ l, 0 ≤ x) : 0 ≤ pyMax l := by
  cases l with
  | nil => exact le_refl 0
  | cons x xs => exact (h x (List.mem_cons_self x xs)).trans (le_foldl_max xs x)

lemma mem_ite_nil {c : Prop} [Decidable c] {a x : ℚ} (h : x ∈ (if c then [a] else [])) :
    x = a ∧ c := by
  by_cases hc : c
  · rw [if_pos hc] at h
    exact ⟨List.mem_singleton.mp h, hc⟩
  · rw [if_neg hc] at h
    exact absurd h (List.not_mem_nil x)

lemma calcScore_nonneg (fr fpr ftsr : String → String → Nat)
    (row : BomRow) (comp : StepComp) :
    0 ≤ calcEnhancedScore fr fpr ftsr row comp := by
  unfold calcEnhancedScore
  split
  · norm_num
  · apply pyMax_nonneg
    intro x hx
    simp only [List.mem_append] at hx
    rcases hx with ((h | h) | h) | h <;> rcases mem_ite_nil h with ⟨rfl, -⟩ <;> positivity

lemma calcScore_le_one (fr fpr ftsr : String → String → Nat)
    (h1 : ∀ a b, fr a b ≤ 100) (h2 : ∀ a b, fpr a b ≤ 100) (h3 : ∀ a b, ftsr a b ≤ 100)
    (row : BomRow) (comp : StepComp) :
    calcEnhancedScore fr fpr ftsr row comp ≤ 1 := by
  have hdiv : ∀ (f : String → String → Nat), (∀ a b, f a b ≤ 100) →
      ∀ a b, (f a b : ℚ) / 100 ≤ 1 := by
    intro f hf a b
    rw [div_le_one (by norm_num)]
    exact_mod_cast hf a b
  unfold calcEnhancedScore
  split
  · norm_num
  · apply pyMax_le (by norm_num)
    intro x hx
    simp only [List.mem_append] at hx
    rcases hx with ((h | h) | h) | h <;> rcases mem_ite_nil h with ⟨rfl, -⟩
    · exact hdiv fr h1 _ _
    · norm_num
    · exact mul_le_one₀ (hdiv fpr h2 _ _) (by norm_num) (by norm_num)
    · exact mul_le_one₀ (hdiv ftsr h3 _ _) (by norm_num) (by norm_num)

/-- C2: with the fuzzy similarity calls returning values in 0..100 (as the
library guarantees), every computed score lies in [0,1]; the match type is
the pure threshold function of the score with inclusive lower bounds 0.95,
0.8, 0.6; and a row with no retained match is typed NoMatch. -/
theorem c2_score_range_and_classification (fr fpr ftsr : String → String → Nat)
    (h1 : ∀ a b, fr a b ≤ 100) (h2 : ∀ a b, fpr a b ≤ 100) (h3 : ∀ a b, ftsr a b ≤ 100) :
    (∀ (row : BomRow) (comp : StepComp),
      0 ≤ calcEnhancedScore fr fpr ftsr row comp ∧
      calcEnhancedScore fr fpr ftsr row comp ≤ 1) ∧
    (∀ q : ℚ,
      (95 / 100 ≤ q → getMatchType q = MatchType.ExactMatch) ∧
      (8 / 10 ≤ q ∧ q < 95 / 100 → getMatchType q = MatchType.StrongMatch) ∧
      (6 / 10 ≤ q ∧ q < 8 / 10 → getMatchType q = MatchType.PartialMatch) ∧
      (q < 6 / 10 → getMatchType q = MatchType.WeakOrNoMatch)) ∧
    (∀ (row : BomRow) (comps : List StepComp),
      (matchRow fr fpr ftsr comps row).STEP_PartNumber = none →
      (matchRow fr fpr ftsr comps row).Match_Type = MatchType.NoMatch) := by
  refine ⟨fun row comp => ⟨calcScore_nonneg fr fpr ftsr row comp,
    calcScore_le_one fr fpr ftsr h1 h2 h3 row comp⟩, ?_, ?_⟩
  · intro q
    refine ⟨?_, ?_, ?_, ?_⟩
    · intro hq
      unfold getMatchType
      rw [if_pos (by linarith)]
    · rintro ⟨hqa, hqb⟩
      unfold getMatchType
      rw [if_neg (not_le.mpr (by linarith)), if_pos (by linarith)]
    · rintro ⟨hqa, hqb⟩
      unfold getMatchType
      rw [if_neg (not_le.mpr (by linarith)), if_neg (not_le.mpr (by linarith)),
        if_pos (by linarith)]
    · intro hq
      unfold getMatchType
      rw [if_neg (not_le.mpr (by linarith)), if_neg (not_le.mpr (by linarith)),
        if_neg (not_le.mpr (by linarith))]
  · intro row comps hpn
    simp only [matchRow] at hpn ⊢
    cases hx : (bestLoop (calcEnhancedScore fr fpr ftsr row) comps (none, 0)).1 with
    | none => simp [hx]
    | some c => rw [hx] at hpn; exact Option.noConfusion hpn

/-- Witness for C2 at concrete inputs. -/
theorem c2_score_range_and_classification_witness :
    (0 ≤ calcEnhancedScore frZero frZero frZero ⟨"A", "B"⟩ ⟨"C", "D"⟩ ∧
      calcEnhancedScore frZero frZero frZero ⟨"A", "B"⟩ ⟨"C", "D"⟩ ≤ 1) ∧
    getMatchType (95 / 100) = MatchType.ExactMatch ∧
    (matchRow frZero frZero frZero [] ⟨"A", "B"⟩).Match_Type = MatchType.NoMatch := by
  have H := c2_score_range_and_classification frZero frZero frZero
    (fun _ _ => Nat.zero_le 100) (fun _ _ => Nat.zero_le 100) (fun _ _ => Nat.zero_le 100)
  exact ⟨H.1 ⟨"A", "B"⟩ ⟨"C", "D"⟩, (H.2.1 (95 / 100)).1 (le_refl _),
    H.2.2 ⟨"A", "B"⟩ [] rfl⟩

/-! ## Claim C4: best-match selection -/

lemma bestLoop_spec (s : StepComp → ℚ) :
    ∀ (l : List StepComp) (bm : Option StepComp) (bs : ℚ),
      (bestLoop s l (bm, bs) = (bm, bs) ∧ ∀ c ∈ l, s c ≤ bs) ∨
      (∃ (i : Nat) (h : i < l.length),
        bestLoop s l (bm, bs) = (some (l.get ⟨i, h⟩), s (l.get ⟨i, h⟩)) ∧
        bs < s (l.get ⟨i, h⟩) ∧
        (∀ (j : Nat) (hj : j < l.length), s (l.get ⟨j, hj⟩) ≤ s (l.get ⟨i, h⟩)) ∧
        (∀ (j : Nat) (hj : j < i), s (l.get ⟨j, hj.trans h⟩) < s (l.get ⟨i, h⟩))) := by
  intro l
  induction l with
  | nil =>
    intro bm bs
    left
    exact ⟨rfl, fun c hc => absurd hc (List.not_mem_nil c)⟩
  | cons c cs ih =>
    intro bm bs
    by_cases hc : s c > bs
    · have hstep : bestLoop s (c :: cs) (bm, bs) = bestLoop s cs (some c, s c) := by
        simp [bestLoop, hc]
      rcases ih (some c) (s c) with ⟨heq, hall⟩ | ⟨i, hi, heq, hlt, hall, hfirst⟩
      · right
        refine ⟨0, Nat.succ_pos cs.length, ?_, hc, ?_, ?_⟩
        · rw [hstep]; exact heq
        · intro j hj
          cases j with
          | zero => exact le_refl _
          | succ j2 => exact hall _ (List.get_mem cs j2 (Nat.lt_of_succ_lt_succ hj))
        · intro j hj; exact absurd hj (Nat.not_lt_zero j)
      · right
        refine ⟨i + 1, Nat.succ_lt_succ hi, ?_, lt_trans hc hlt, ?_, ?_⟩
        · rw [hstep]; exact heq
        · intro j hj
          cases j with
          | zero => exact le_of_lt hlt
          | succ j2 => exact hall j2 (Nat.lt_of_succ_lt_succ hj)
        · intro j hj
          cases j with
          | zero => exact hlt
          | succ j2 => exact hfirst j2 (Nat.lt_of_succ_lt_succ hj)
    · have hstep : bestLoop s (c :: cs) (bm, bs) = bestLoop s cs (bm, bs) := by
        simp [bestLoop, hc]
      have hcb : s c ≤ bs := le_of_not_lt hc
      rcases ih bm bs with ⟨heq, hall⟩ | ⟨i, hi, heq, hlt, hall, hfirst⟩
      · left
        refine ⟨by rw [hstep]; exact heq, ?_⟩
        intro x hx
        rcases List.mem_cons.mp hx with rfl | hx2
        · exact hcb
        · exact hall x hx2
      · right
        refine ⟨i + 1, Nat.succ_lt_succ hi, by rw [hstep]; exact heq, hlt, ?_, ?_⟩
        · intro j hj
          cases j with
          | zero => exact le_of_lt (hcb.trans_lt hlt)
          | succ j2 => exact hall j2 (Nat.lt_of_succ_lt_succ hj)
        · intro j hj
          cases j with
          | zero => exact hcb.trans_lt hlt
          | succ j2 => exact hfirst j2 (Nat.lt_of_succ_lt_succ hj)

/-- C4: per row, the kept match is the component with the strictly greatest
score, ties keeping the first encountered in iteration order (every earlier
component scores strictly less, every component scores at most the kept
score); and if the list is empty or no component scores strictly above 0,
the matched fields are absent, the score is 0, and the type is NoMatch. -/
theorem c4_best_match_selection (fr fpr ftsr : String → String → Nat)
    (row : BomRow) (comps : List StepComp) :
    ((comps = [] ∨ ∀ c ∈ comps, ¬ (0 < calcEnhancedScore fr fpr ftsr row c)) →
      (matchRow fr fpr ftsr comps row).STEP_PartNumber = none ∧
      (matchRow fr fpr ftsr comps row).STEP_Description = none ∧
      (matchRow fr fpr ftsr comps row).Match_Score = 0 ∧
      (matchRow fr fpr ftsr comps row).Match_Type = MatchType.NoMatch) ∧
    ((∃ c ∈ comps, 0 < calcEnhancedScore fr fpr ftsr row c) →
      ∃ (i : Nat) (h : i < comps.length),
        (matchRow fr fpr ftsr comps row).STEP_PartNumber =
          some ((comps.get ⟨i, h⟩).part_number) ∧
        (matchRow fr fpr ftsr comps row).STEP_Description =
          some ((comps.get ⟨i, h⟩).description) ∧
        (matchRow fr fpr ftsr comps row).Match_Score =
          calcEnhancedScore fr fpr ftsr row (comps.get ⟨i, h⟩) ∧
        (∀ (j : Nat) (hj : j < comps.length),
          calcEnhancedScore fr fpr ftsr row (comps.get ⟨j, hj⟩) ≤
            (matchRow fr fpr ftsr comps row).Match_Score) ∧
        (∀ (j : Nat) (hj : j < i),
          calcEnhancedScore fr fpr ftsr row (comps.get ⟨j, hj.trans h⟩) <
            (matchRow fr fpr ftsr comps row).Match_Score)) := by
  rcases bestLoop_spec (calcEnhancedScore fr fpr ftsr row) comps none 0 with
    ⟨heq, hall⟩ | ⟨i, hi, heq, hlt, hall, hfirst⟩
  · constructor
    · intro _
      have hm : matchRow fr fpr ftsr comps row =
          ⟨row.PartNumber, row.Description, none, none, 0, MatchType.NoMatch⟩ := by
        simp [matchRow, heq]
      rw [hm]
      exact ⟨rfl, rfl, rfl, rfl⟩
    · rintro ⟨c, hcmem, hcpos⟩
      exact absurd hcpos (not_lt.mpr (hall c hcmem))
  · have hm : matchRow fr fpr ftsr comps row =
        ⟨row.PartNumber, row.Description, some ((comps.get ⟨i, hi⟩).part_number),
         some ((comps.get ⟨i, hi⟩).description),
         calcEnhancedScore fr fpr ftsr row (comps.get ⟨i, hi⟩),
         getMatchType (calcEnhancedScore fr fpr ftsr row (comps.get ⟨i, hi⟩))⟩ := by
      simp [matchRow, heq]
    constructor
    · intro hcond
      exfalso
      rcases hcond with hnil | hnone
      · rw [hnil] at hi; exact absurd hi (Nat.not_lt_zero i)
      · exact hnone (comps.get ⟨i, hi⟩) (List.get_mem comps i hi) hlt
    · intro _
      refine ⟨i, hi, by rw [hm], by rw [hm], by rw [hm], ?_, ?_⟩
      · intro j hj; rw [hm]; exact hall j hj
      · intro j hj; rw [hm]; exact hfirst j hj

/-- Witness for C4: the empty component list yields an unmatched row. -/
theorem c4_best_match_selection_witness :
    (matchRow frZero frZero frZero [] ⟨"A", "B"⟩).Match_Type = MatchType.NoMatch ∧
    (matchRow frZero frZero frZero [] ⟨"A", "B"⟩).Match_Score = 0 := by
  have H := (c4_best_match_selection frZero frZero frZero ⟨"A", "B"⟩ []).1 (Or.inl rfl)
  exact ⟨H.2.2.2, H.2.2.1⟩

/-! ## Post-processing (`_post_process_matches`) -/

/-- One output row after post-processing. The score column is a rendered
percentage string, exactly as the source leaves it (matcher.py line 158
overwrites `Match_Score` with the formatted string). -/
structure DisplayRow where
  BOM_PartNumber : String
  BOM_Description : String
  STEP_PartNumber : Option String
  STEP_Description : Option String
  Match_Score : String
  Match_Type : MatchType
deriving DecidableEq

/-- Round half to even, as Python percent formatting does. Python floats
are modelled as rationals. -/
def roundHalfEven (q : ℚ) : ℤ :=
  let f := ⌊q⌋
  if q - f < 1 / 2 then f
  else if 1 / 2 < q - f then f + 1
  else if f % 2 = 0 then f else f + 1

/-- Model of the Python formatting expression `f"{score:.0%}"` used by
`format_score` (matcher.py lines 150-156): multiply by 100, round to zero
decimals, append a percent sign. -/
def formatScore (q : ℚ) : String := toString (roundHalfEven (q * 100)) ++ "%"

/-- Application of `format_score` across a row (matcher.py line 158): the
numeric score column is overwritten with its rendering. -/
def displayOfResult (r : MatchResult) : DisplayRow :=
  ⟨r.BOM_PartNumber, r.BOM_Description, r.STEP_PartNumber, r.STEP_Description,
   formatScore r.Match_Score, r.Match_Type⟩

/-- The de-duplication key of `drop_duplicates` (matcher.py lines 134-137). -/
def rKey (r : MatchResult) : String × String := (r.BOM_PartNumber, r.BOM_Description)

/-- Model of `DataFrame.drop_duplicates(subset=key, keep="first")`: keep a
row when its key has not been seen yet. -/
def dedupGo (seen : List (String × String)) : List MatchResult → List MatchResult
  | [] => []
  | r :: rs => if rKey r ∈ seen then dedupGo seen rs else r :: dedupGo (rKey r :: seen) rs

/-- De-duplication keeping the first occurrence of each key. -/
def dedupFirst (rs : List MatchResult) : List MatchResult := dedupGo [] rs

/-- Stable insertion for a descending sort. -/
def insertDesc {α : Type} (f : α → ℚ) (a : α) : List α → List α
  | [] => [a]
  | b :: bs => if f b ≤ f a then a :: b :: bs else b :: insertDesc f a bs

/-- Modelled from the spec: `DataFrame.sort_values("Match_Score",
ascending=False)` is pandas library code not present in src/; the spec
(sections 3 and 5) fixes it to a deterministic descending sort that is
stable, i.e. ties keep the original row order. -/
def sortDesc {α : Type} (f : α → ℚ) (l : List α) : List α := l.foldr (insertDesc f) []

/-- Embedding of `_post_process_matches` (matcher.py lines 130-164):
de-duplicate keeping first, coerce the (already numeric) score column,
sort by score descending, then overwrite the score column with its
percentage rendering. -/
def postProcess (rs : List MatchResult) : List DisplayRow :=
  (sortDesc (fun r => r.Match_Score) (dedupFirst rs)).map displayOfResult

/-- Embedding of `match_components` (matcher.py lines 6-42): pre-process
rows and components, compute one best-match result per surviving row in
order, then post-process. -/
def matchComponents (fr fpr ftsr : String → String → Nat)
    (rows : List BomRow) (comps : List StepComp) : List DisplayRow :=
  let rows2 := (rows.map normRow).filter
    (fun r => decide (r.PartNumber ≠ "" ∨ r.Description ≠ ""))
  let comps2 := comps.map normComp
  postProcess (rows2.map (matchRow fr fpr ftsr comps2))

/-! Properties of de-duplication. -/

lemma dedupGo_sublist : ∀ (l : List MatchResult) (seen : List (String × String)),
    List.Sublist (dedupGo seen l) l := by
  intro l
  induction l with
  | nil => intro seen; exact List.Sublist.refl []
  | cons r rs ih =>
    intro seen
    by_cases h : rKey r ∈ seen
    · simp only [dedupGo]
      rw [if_pos h]
      exact (ih seen).cons r
    · simp only [dedupGo]
      rw [if_neg h]
      exact (ih (rKey r :: seen)).cons₂ r

lemma dedupGo_spec : ∀ (l : List MatchResult) (seen : List (String × String)),
    ((dedupGo seen l).map rKey).Nodup ∧ ∀ x ∈ dedupGo seen l, rKey x ∉ seen := by
  intro l
  induction l with
  | nil =>
    intro seen
    exact ⟨List.nodup_nil, fun x hx => absurd hx (List.not_mem_nil x)⟩
  | cons r rs ih =>
    intro seen
    by_cases h : rKey r ∈ seen
    · simp only [dedupGo]
      rw [if_pos h]
      exact ih seen
    · simp only [dedupGo]
      rw [if_neg h]
      obtain ⟨ihn, ihs⟩ := ih (rKey r :: seen)
      refine ⟨?_, ?_⟩
      · rw [List.map_cons, List.nodup_cons]
        refine ⟨?_, ihn⟩
        intro hmem
        rcases List.mem_map.mp hmem with ⟨x, hx, hkx⟩
        exact (ihs x hx) (hkx ▸ List.mem_cons_self (rKey x) seen)
      · intro x hx
        rcases List.mem_cons.mp hx with rfl | hx2
        · exact h
        · exact fun hmem => (ihs x hx2) (List.mem_cons_of_mem _ hmem)

lemma dedupGo_first : ∀ (l : List MatchResult) (seen : List (String × String))
    (i : Nat) (hi : i < l.length),
    (∀ (j : Nat) (hj : j < i), rKey (l.get ⟨j, hj.trans hi⟩) ≠ rKey (l.get ⟨i, hi⟩)) →
    rKey (l.get ⟨i, hi⟩) ∉ seen → l.get ⟨i, hi⟩ ∈ dedupGo seen l := by
  intro l
  induction l with
  | nil => intro seen i hi; exact absurd hi (Nat.not_lt_zero i)
  | cons r rs ih =>
    intro seen i hi hfirst hseen
    cases i with
    | zero =>
      have hseen2 : rKey r ∉ seen := hseen
      simp only [dedupGo]
      rw [if_neg hseen2]
      exact List.mem_cons_self r _
    | succ i2 =>
      have hi2 : i2 < rs.length := Nat.lt_of_succ_lt_succ hi
      by_cases h : rKey r ∈ seen
      · simp only [dedupGo]
        rw [if_pos h]
        exact ih seen i2 hi2
          (fun j hj => hfirst (j + 1) (Nat.succ_lt_succ hj)) hseen
      · simp only [dedupGo]
        rw [if_neg h]
        refine List.mem_cons_of_mem r (ih (rKey r :: seen) i2 hi2
          (fun j hj => hfirst (j + 1) (Nat.succ_lt_succ hj)) ?_)
        intro hmem
        rcases List.mem_cons.mp hmem with heqk | hmem2
        · exact hfirst 0 (Nat.succ_pos i2) heqk.symm
        · exact hseen hmem2

/-! Properties of the stable descending insertion sort. -/

lemma insertDesc_split {α : Type} (f : α → ℚ) (a : α) : ∀ l : List α,
    ∃ l₁ l₂, insertDesc f a l = l₁ ++ a :: l₂ ∧ l = l₁ ++ l₂ ∧ ∀ b ∈ l₁, f a < f b := by
  intro l
  induction l with
  | nil => exact ⟨[], [], rfl, rfl, fun b hb => absurd hb (List.not_mem_nil b)⟩
  | cons b bs ih =>
    by_cases hb : f b ≤ f a
    · refine ⟨[], b :: bs, ?_, rfl, fun x hx => absurd hx (List.not_mem_nil x)⟩
      simp only [insertDesc]
      rw [if_pos hb]
      rfl
    · obtain ⟨l₁, l₂, h1, h2, h3⟩ := ih
      refine ⟨b :: l₁, l₂, ?_, by rw [List.cons_append, ← h2], ?_⟩
      · simp only [insertDesc]
        rw [if_neg hb, h1]
        rfl
      · intro x hx
        rcases List.mem_cons.mp hx with rfl | hx2
        · exact not_le.mp hb
        · exact h3 x hx2

lemma insertDesc_mem {α : Type} (f : α → ℚ) (a : α) : ∀ (l : List α) (x : α),
    x ∈ insertDesc f a l → x = a ∨ x ∈ l := by
  intro l
  induction l with
  | nil =>
    intro x hx
    exact Or.inl (List.mem_singleton.mp hx)
  | cons b bs ih =>
    intro x hx
    by_cases hb : f b ≤ f a
    · simp only [insertDesc] at hx
      rw [if_pos hb] at hx
      rcases List.mem_cons.mp hx with rfl | hx2
      · exact Or.inl rfl
      · exact Or.inr hx2
    · simp only [insertDesc] at hx
      rw [if_neg hb] at hx
      rcases List.mem_cons.mp hx with rfl | hx2
      · exact Or.inr (List.mem_cons_self x bs)
      · rcases ih x hx2 with rfl | hx3
        · exact Or.inl rfl
        · exact Or.inr (List.mem_cons_of_mem b hx3)

lemma insertDesc_pairwise {α : Type} (f : α → ℚ) (a : α) : ∀ l : List α,
    List.Pairwise (fun x y => f y ≤ f x) l →
    List.Pairwise (fun x y => f y ≤ f x) (insertDesc f a l) := by
  intro l
  induction l with
  | nil =>
    intro _
    exact List.pairwise_singleton _ a
  | cons b bs ih =>
    intro h
    rcases List.pairwise_cons.mp h with ⟨hrel, htail⟩
    by_cases hb : f b ≤ f a
    · simp only [insertDesc]
      rw [if_pos hb]
      refine List.Pairwise.cons ?_ h
      intro y hy
      rcases List.mem_cons.mp hy with rfl | hy2
      · exact hb
      · exact (hrel y hy2).trans hb
    · simp only [insertDesc]
      rw [if_neg hb]
      refine List.Pairwise.cons ?_ (ih htail)
      intro y hy
      rcases insertDesc_mem f a bs y hy with rfl | hy2
      · exact le_of_lt (not_le.mp hb)
      · exact hrel y hy2

lemma sortDesc_perm {α : Type} (f : α → ℚ) : ∀ l : List α, List.Perm (sortDesc f l) l := by
  intro l
  induction l with
  | nil => exact List.Perm.refl []
  | cons a l ih =>
    show List.Perm (insertDesc f a (sortDesc f l)) (a :: l)
    obtain ⟨l₁, l₂, h1, h2, -⟩ := insertDesc_split f a (sortDesc f l)
    rw [h1]
    have p1 : List.Perm (l₁ ++ a :: l₂) (a :: (l₁ ++ l₂)) := List.perm_middle
    rw [← h2] at p1
    exact p1.trans (List.Perm.cons a ih)

lemma sortDesc_sorted {α : Type} (f : α → ℚ) : ∀ l : List α,
    List.Pairwise (fun x y => f y ≤ f x) (sortDesc f l) := by
  intro l
  induction l with
  | nil => exact List.Pairwise.nil
  | cons a l ih => exact insertDesc_pairwise f a (sortDesc f l) ih

lemma filter_insertDesc {α : Type} (f : α → ℚ) (a : α) (k : ℚ) : ∀ l : List α,
    (insertDesc f a l).filter (fun x => decide (f x = k)) =
      if f a = k then a :: l.filter (fun x => decide (f x = k))
      else l.filter (fun x => decide (f x = k)) := by
  intro l
  induction l with
  | nil =>
    by_cases hk : f a = k <;> simp [insertDesc, List.filter, hk]
  | cons b bs ih =>
    by_cases hb : f b ≤ f a
    · simp only [insertDesc]
      rw [if_pos hb]
      by_cases hk : f a = k
      · simp [List.filter_cons, hk]
      · simp [List.filter_cons, hk]
    · simp only [insertDesc]
      rw [if_neg hb]
      by_cases hbk : f b = k
      · by_cases hk : f a = k
        · exact absurd (le_of_eq (hbk.trans hk.symm)) hb
        · simp [List.filter_cons, hbk, ih, hk]
      · by_cases hk : f a = k
        · simp [List.filter_cons, hbk, ih, hk]
        · simp [List.filter_cons, hbk, ih, hk]

lemma sortDesc_stable {α : Type} (f : α → ℚ) (k : ℚ) : ∀ l : List α,
    (sortDesc f l).filter (fun x => decide (f x = k)) =
      l.filter (fun x => decide (f x = k)) := by
  intro l
  induction l with
  | nil => rfl
  | cons a l ih =>
    show (insertDesc f a (sortDesc f l)).filter _ = _
    rw [filter_insertDesc]
    by_cases hk : f a = k
    · rw [if_pos hk, ih]
      simp [List.filter_cons, hk]
    · rw [if_neg hk, ih]
      simp [List.filter_cons, hk]

/-! ## Claim C5 (corrected): what post-processing actually does -/

/-- A result row scoring 0.1 percent. -/
def ceRowA : MatchResult := ⟨"A", "B", none, none, 1 / 1000, MatchType.WeakOrNoMatch⟩

/-- A result row scoring 0.2 percent. -/
def ceRowB : MatchResult := ⟨"A", "B", none, none, 2 / 1000, MatchType.WeakOrNoMatch⟩

lemma formatScore_small (q : ℚ) (h0 : 0 ≤ q) (h : q * 100 < 1 / 2) :
    formatScore q = "0%" := by
  have hf : ⌊q * 100⌋ = 0 := by
    rw [Int.floor_eq_iff]
    constructor
    · push_cast
      positivity
    · push_cast
      linarith
  simp only [formatScore, roundHalfEven, hf]
  rw [if_pos (by push_cast; linarith)]
  rfl

/-- Counterexample to C5 as stated: two result sets that differ only in
the numeric score produce identical post-processed output, so the
underlying numeric score is not available in the output. -/
theorem c5_numeric_score_not_retained :
    postProcess [ceRowA] = postProcess [ceRowB] ∧
    ceRowA.Match_Score ≠ ceRowB.Match_Score := by
  constructor
  · have hs1 : formatScore ((1 : ℚ) / 1000) = "0%" :=
      formatScore_small _ (by norm_num) (by norm_num)
    have hs2 : formatScore ((2 : ℚ) / 1000) = "0%" :=
      formatScore_small _ (by norm_num) (by norm_num)
    have hd : displayOfResult ceRowA = displayOfResult ceRowB := by
      show (⟨"A", "B", none, none, formatScore ((1 : ℚ) / 1000),
             MatchType.WeakOrNoMatch⟩ : DisplayRow) =
           ⟨"A", "B", none, none, formatScore ((2 : ℚ) / 1000), MatchType.WeakOrNoMatch⟩
      rw [hs1, hs2]
    exact congrArg (fun d => [d]) hd
  · simp only [ceRowA, ceRowB]
    norm_num

/-- C5 (amended): post-processing de-duplicates by the
`(bom_part_number, bom_description)` key keeping the first occurrence
(the kept rows are a sub-list of the input with pairwise distinct keys,
and every first occurrence of a key is kept), sorts the kept rows
descending by numeric score, and then overwrites the score column with the
rounded percentage rendering, so the output carries the rendered string
in place of the numeric score. (The source's `pd.to_numeric` coercion is
the identity here because the score column is numeric by construction.) -/
theorem c5_post_processing (rs : List MatchResult) :
    List.Sublist (dedupFirst rs) rs ∧
    ((dedupFirst rs).map rKey).Nodup ∧
    (∀ (i : Nat) (hi : i < rs.length),
      (∀ (j : Nat) (hj : j < i), rKey (rs.get ⟨j, hj.trans hi⟩) ≠ rKey (rs.get ⟨i, hi⟩)) →
      rs.get ⟨i, hi⟩ ∈ dedupFirst rs) ∧
    List.Perm (sortDesc (fun r => r.Match_Score) (dedupFirst rs)) (dedupFirst rs) ∧
    List.Pairwise (fun x y => y.Match_Score ≤ x.Match_Score)
      (sortDesc (fun r => r.Match_Score) (dedupFirst rs)) ∧
    postProcess rs =
      (sortDesc (fun r => r.Match_Score) (dedupFirst rs)).map displayOfResult := by
  refine ⟨dedupGo_sublist rs [], (dedupGo_spec rs []).1, ?_, ?_, ?_, rfl⟩
  · intro i hi hfirst
    exact dedupGo_first rs [] i hi hfirst (List.not_mem_nil _)
  · exact sortDesc_perm _ _
  · exact sortDesc_sorted _ _

/-- A plain result row. -/
def wRow : MatchResult := ⟨"W", "X", none, none, 1, MatchType.ExactMatch⟩

/-- Witness for C5 (amended), instantiating the first-occurrence clause. -/
theorem c5_post_processing_witness : wRow ∈ dedupFirst [wRow] :=
  (c5_post_processing [wRow]).2.2.1 0 (by norm_num)
    (fun j hj => absurd hj (Nat.not_lt_zero j))

/-! ## Claim C6: determinism and stable output order -/

/-- C6: the matching engine is a pure function, so re-running it on equal
normalized inputs yields equal output sequences; and the output order is
determined by the input as a stable descending sort: the sorted sequence
is a permutation of the kept rows, is descending in score, and rows of
equal score keep their original relative order (the sub-sequence at each
score value is unchanged). The pandas sort itself is library code,
modelled from the spec as `sortDesc`. -/
theorem c6_deterministic_stable_order :
    (∀ (fr fpr ftsr : String → String → Nat) (rows rows2 : List BomRow)
       (comps comps2 : List StepComp), rows = rows2 → comps = comps2 →
       matchComponents fr fpr ftsr rows comps = matchComponents fr fpr ftsr rows2 comps2) ∧
    (∀ (f : MatchResult → ℚ) (l : List MatchResult),
      List.Perm (sortDesc f l) l ∧
      List.Pairwise (fun x y => f y ≤ f x) (sortDesc f l) ∧
      (∀ k : ℚ, (sortDesc f l).filter (fun x => decide (f x = k)) =
        l.filter (fun x => decide (f x = k)))) := by
  constructor
  · intro fr fpr ftsr rows rows2 comps comps2 h1 h2
    rw [h1, h2]
  · intro f l
    exact ⟨sortDesc_perm f l, sortDesc_sorted f l, fun k => sortDesc_stable f k l⟩

/-- Witness for C6: the determinism clause at concrete inputs. -/
theorem c6_deterministic_stable_order_witness :
    matchComponents frZero frZero frZero [⟨"A", "B"⟩] [⟨"C", "D"⟩] =
      matchComponents frZero frZero frZero [⟨"A", "B"⟩] [⟨"C", "D"⟩] :=
  c6_deterministic_stable_order.1 frZero frZero frZero _ _ _ _ rfl rfl

/-! ## Claim C7: the two top-level record delimiter strategies -/

/-- Model of matching the primary record pattern
`#(\d+)\s*=\s*([^;]*);` against one whole record slab, followed by the
`.strip()` applied at the `_parse_entity` call site (step_parser.py lines
36, 43-44, 54): leading `#`, digits, optional whitespace, `=`, optional
whitespace, a body free of semicolons, a final `;`. -/
def parseSlab1 (text : String) : Option (String × String) :=
  match text.data with
  | c0 :: rest =>
    if c0 = '#' then
      let ds := rest.takeWhile Char.isDigit
      if ds.isEmpty then none
      else
        match (rest.drop ds.length).dropWhile Char.isWhitespace with
        | e :: r2 =>
          if e = '=' then
            let r3 := r2.dropWhile Char.isWhitespace
            let body := r3.takeWhile (fun ch => ch ≠ ';')
            match r3.drop body.length with
            | s :: r5 => if s = ';' ∧ r5 = [] then some (⟨ds⟩, pyStrip ⟨body⟩) else none
            | [] => none
          else none
        | [] => none
    else none
  | [] => none

/-- Strategy 1 of `parse_step_file` on one record slab. -/
def strat1Entity (text : String) : Option Entity :=
  match parseSlab1 text with
  | some (i, d) => parseEntity i d
  | none => none

/-- Model of `re.search(r"#(\d+)", full_match)` (step_parser.py line 47):
the first `#` immediately followed by at least one digit, taking the
maximal digit run. -/
def findHashId : List Char → Option String
  | [] => none
  | c :: rest =>
    if c = '#' then
      let ds := rest.takeWhile Char.isDigit
      if ds.isEmpty then findHashId rest else some ⟨ds⟩
    else findHashId rest

/-- Fuel-driven worker for `replaceAll`; the fuel is an upper bound on the
number of characters still to be consumed. -/
def replaceAllGo (pat : List Char) : Nat → List Char → List Char
  | _, [] => []
  | 0, l => l
  | fuel + 1, c :: cs =>
    if pat ≠ [] ∧ pat.isPrefixOf (c :: cs) then
      replaceAllGo pat fuel (cs.drop (pat.length - 1))
    else c :: replaceAllGo pat fuel cs

/-- Model of Python `str.replace(pat, "")`: remove every occurrence of
`pat`, scanning left to right over non-overlapping occurrences. -/
def replaceAll (pat l : List Char) : List Char := replaceAllGo pat l.length l

/-- The character class of `strip(" ;")`. -/
def isSpaceSemi (c : Char) : Bool := c == ' ' || c == ';'

/-- Model of Python `str.strip(" ;")` (step_parser.py line 50). -/
def stripSpaceSemi (l : List Char) : List Char :=
  ((l.dropWhile isSpaceSemi).reverse.dropWhile isSpaceSemi).reverse

/-- Strategy 2 of `parse_step_file` on one record slab (step_parser.py
lines 46-54): locate the id, strip the literal `"#<id> ="` prefix via a
global replace, strip `" ;"`, then the `.strip()` at the call site. -/
def strat2Entity (text : String) : Option Entity :=
  match findHashId text.data with
  | none => none
  | some id0 =>
    parseEntity id0
      (pyStrip ⟨stripSpaceSemi (replaceAll (('#' :: id0.data) ++ [' ', '=']) text.data)⟩)

/-- The text after the id in a canonical record slab: ` = <body>;`. -/
def slabTail (body : String) : List Char := ' ' :: '=' :: ' ' :: (body.data ++ [';'])

/-- A record slab in the canonical single-space form `#<id> = <body>;`. -/
def slabText (id0 body : String) : String := ⟨'#' :: (id0.data ++ slabTail body)⟩

/-! Helper lemmas for the slab computations. -/

lemma takeWhile_append_stop {p : Char → Bool} {a : List Char} {c : Char} {b : List Char}
    (ha : ∀ x ∈ a, p x = true) (hc : p c = false) :
    (a ++ c :: b).takeWhile p = a := by
  induction a with
  | nil => exact List.takeWhile_cons_of_neg (by rw [hc]; exact Bool.noConfusion)
  | cons x a2 ih =>
    rw [List.cons_append, List.takeWhile_cons_of_pos (ha x (List.mem_cons_self x a2))]
    rw [ih (fun y hy => ha y (List.mem_cons_of_mem x hy))]

lemma isEmpty_false_of_ne_nil {l : List Char} (h : l ≠ []) : l.isEmpty = false := by
  cases hi : l.isEmpty
  · rfl
  · exact absurd (List.isEmpty_iff.mp hi) h

lemma trim_fix_left {l : List Char} (h : trimChars l = l) :
    l.dropWhile Char.isWhitespace = l := by
  have h1 : (l.dropWhile Char.isWhitespace).length ≤ l.length :=
    (List.dropWhile_suffix _).length_le
  have h2 : (trimChars l).length ≤ (l.dropWhile Char.isWhitespace).length := by
    unfold trimChars
    rw [List.length_reverse]
    calc ((l.dropWhile Char.isWhitespace).reverse.dropWhile Char.isWhitespace).length
        ≤ (l.dropWhile Char.isWhitespace).reverse.length :=
          (List.dropWhile_suffix _).length_le
      _ = (l.dropWhile Char.isWhitespace).length := List.length_reverse _
  rw [h] at h2
  exact (List.dropWhile_suffix _).eq_of_length (Nat.le_antisymm h1 h2)

lemma trim_fix_right {l : List Char} (h : trimChars l = l) :
    l.reverse.dropWhile Char.isWhitespace = l.reverse := by
  have h1 := trim_fix_left h
  unfold trimChars at h
  rw [h1] at h
  have h2 := congrArg List.reverse h
  simpa using h2

lemma head_false_of_dropWhile_fix {p : Char → Bool} {c : Char} {l : List Char}
    (h : (c :: l).dropWhile p = c :: l) : p c = false := by
  cases hpc : p c
  · rfl
  · rw [List.dropWhile_cons_of_pos hpc] at h
    have hlen := congrArg List.length h
    have hle : (l.dropWhile p).length ≤ l.length := (List.dropWhile_suffix _).length_le
    rw [List.length_cons] at hlen
    omega

lemma replaceAllGo_no_hash {pat : List Char} {t : List Char} (hp : pat = '#' :: t) :
    ∀ (fuel : Nat) (l : List Char), (∀ c ∈ l, c ≠ '#') → replaceAllGo pat fuel l = l := by
  intro fuel
  induction fuel with
  | zero =>
    intro l _
    cases l with
    | nil => rfl
    | cons c cs => rfl
  | succ f ih =>
    intro l hl
    cases l with
    | nil => rfl
    | cons c cs =>
      have hc : c ≠ '#' := hl c (List.mem_cons_self c cs)
      have hpre : pat.isPrefixOf (c :: cs) = false := by
        rw [hp]
        show (('#' == c) && t.isPrefixOf cs) = false
        have : ('#' == c) = false := beq_eq_false_iff_ne.mpr (fun he => hc he.symm)
        rw [this, Bool.false_and]
      simp only [replaceAllGo]
      rw [if_neg (fun hand => by rw [hpre] at hand; exact Bool.noConfusion hand.2)]
      rw [ih cs (fun x hx => hl x (List.mem_cons_of_mem c hx))]

lemma replaceAll_head_occurrence {pt rest : List Char}
    (hrest : ∀ c ∈ rest, c ≠ '#') :
    replaceAll ('#' :: pt) (('#' :: pt) ++ rest) = rest := by
  have hshape : ('#' :: pt) ++ rest = '#' :: (pt ++ rest) := rfl
  have hlen : (('#' :: pt) ++ rest).length = (pt ++ rest).length + 1 := by simp
  unfold replaceAll
  rw [hlen, hshape]
  have hpre : ('#' :: pt).isPrefixOf ('#' :: (pt ++ rest)) = true := by
    rw [List.isPrefixOf_iff_prefix]
    exact ⟨rest, rfl⟩
  simp only [replaceAllGo]
  rw [if_pos ⟨List.cons_ne_nil _ _, hpre⟩]
  rw [show ('#' :: pt).length - 1 = pt.length from by simp, List.drop_left]
  exact replaceAllGo_no_hash rfl _ rest hrest

lemma stripSpaceSemi_body {body : List Char}
    (hb1 : body.dropWhile Char.isWhitespace = body)
    (hb2 : body.reverse.dropWhile Char.isWhitespace = body.reverse)
    (hsemi : ';' ∉ body) :
    stripSpaceSemi (' ' :: (body ++ [';'])) = body := by
  unfold stripSpaceSemi
  rw [List.dropWhile_cons_of_pos (by decide)]
  cases hbd : body with
  | nil =>
    rw [List.nil_append]
    decide
  | cons c bt =>
    rw [hbd] at hb1 hb2 hsemi
    have hcw : Char.isWhitespace c = false := head_false_of_dropWhile_fix hb1
    have hcs : c ≠ ';' := fun he => hsemi (he ▸ List.mem_cons_self c bt)
    have hcss : isSpaceSemi c = false := by
      unfold isSpaceSemi
      have h1 : (c == ' ') = false := by
        apply beq_eq_false_iff_ne.mpr
        intro he
        rw [he] at hcw
        exact absurd hcw (by decide)
      have h2 : (c == ';') = false := beq_eq_false_iff_ne.mpr hcs
      rw [h1, h2]
      rfl
    rw [List.cons_append, List.dropWhile_cons_of_neg (by rw [hcss]; exact Bool.noConfusion)]
    rw [← List.cons_append, List.reverse_append]
    show ((List.reverse [';'] ++ (c :: bt).reverse).dropWhile isSpaceSemi).reverse = c :: bt
    rw [show List.reverse [';'] = [';'] from rfl, List.singleton_append,
      List.dropWhile_cons_of_pos (by decide)]
    cases hrv : (c :: bt).reverse with
    | nil => exact absurd (congrArg List.length hrv) (by simp)
    | cons d rt =>
      rw [hrv] at hb2
      have hdw : Char.isWhitespace d = false := head_false_of_dropWhile_fix hb2
      have hdm : d ∈ c :: bt := by
        have : d ∈ (c :: bt).reverse := hrv ▸ List.mem_cons_self d rt
        exact List.mem_reverse.mp this
      have hds : d ≠ ';' := fun he => hsemi (he ▸ hdm)
      have hdss : isSpaceSemi d = false := by
        unfold isSpaceSemi
        have h1 : (d == ' ') = false := by
          apply beq_eq_false_iff_ne.mpr
          intro he
          rw [he] at hdw
          exact absurd hdw (by decide)
        have h2 : (d == ';') = false := beq_eq_false_iff_ne.mpr hds
        rw [h1, h2]
        rfl
      rw [List.dropWhile_cons_of_neg (by rw [hdss]; exact Bool.noConfusion), ← hrv]
      exact List.reverse_reverse _

lemma digits_all {id0 : String} (hdig : id0.data.all Char.isDigit = true) :
    ∀ x ∈ id0.data, Char.isDigit x = true :=
  fun x hx => List.all_eq_true.mp hdig x hx

lemma slab_takeWhile_digits {id0 body : String} (hdig : id0.data.all Char.isDigit = true) :
    (id0.data ++ slabTail body).takeWhile Char.isDigit = id0.data :=
  takeWhile_append_stop (digits_all hdig) (by decide)

lemma dropWhile_ws_tail {body : String} (htrim : pyStrip body = body) :
    (' ' :: (body.data ++ [';'])).dropWhile Char.isWhitespace = body.data ++ [';'] := by
  have hb1 : body.data.dropWhile Char.isWhitespace = body.data :=
    trim_fix_left (congrArg String.data htrim)
  rw [List.dropWhile_cons_of_pos (by decide)]
  cases hbd : body.data with
  | nil =>
    rw [List.nil_append]
    rw [List.dropWhile_cons_of_neg (by decide)]
  | cons c bt =>
    rw [hbd] at hb1
    have hcw : Char.isWhitespace c = false := head_false_of_dropWhile_fix hb1
    rw [List.cons_append, List.dropWhile_cons_of_neg (by rw [hcw]; exact Bool.noConfusion)]

lemma parseSlab1_slab (id0 body : String) (hid : id0.data ≠ [])
    (hdig : id0.data.all Char.isDigit = true) (hsemi : ';' ∉ body.data)
    (htrim : pyStrip body = body) :
    parseSlab1 (slabText id0 body) = some (id0, body) := by
  have htw : (id0.data ++ slabTail body).takeWhile Char.isDigit = id0.data :=
    slab_takeWhile_digits hdig
  have hie : id0.data.isEmpty = false := isEmpty_false_of_ne_nil hid
  have hdr : (id0.data ++ slabTail body).drop id0.data.length = slabTail body :=
    List.drop_left _ _
  have h2 : (slabTail body).dropWhile Char.isWhitespace =
      '=' :: (' ' :: (body.data ++ [';'])) := by
    unfold slabTail
    rw [List.dropWhile_cons_of_pos (by decide), List.dropWhile_cons_of_neg (by decide)]
  have hr3 : (' ' :: (body.data ++ [';'])).dropWhile Char.isWhitespace =
      body.data ++ [';'] := dropWhile_ws_tail htrim
  have htb : (body.data ++ [';']).takeWhile (fun ch => decide (ch ≠ ';')) = body.data :=
    takeWhile_append_stop
      (fun x hx => decide_eq_true (fun he => hsemi (he ▸ hx))) (by decide)
  have hdb : (body.data ++ [';']).drop body.data.length = [';'] := List.drop_left _ _
  simp only [parseSlab1, slabText, data_mk, htw, hie, hdr, h2, hr3, htb, hdb]
  rw [if_pos trivial, if_neg (show ¬ (false = true) from Bool.noConfusion),
    if_pos trivial, if_pos ⟨trivial, trivial⟩, strEta, strEta, htrim]

lemma findHashId_slab (id0 body : String) (hid : id0.data ≠ [])
    (hdig : id0.data.all Char.isDigit = true) :
    findHashId (slabText id0 body).data = some id0 := by
  have htw : (id0.data ++ slabTail body).takeWhile Char.isDigit = id0.data :=
    slab_takeWhile_digits hdig
  have hie : id0.data.isEmpty = false := isEmpty_false_of_ne_nil hid
  simp only [slabText, data_mk, findHashId, htw, hie]
  rw [if_pos trivial, if_neg (show ¬ (false = true) from Bool.noConfusion), strEta]

lemma strat1_slab (id0 body : String) (hid : id0.data ≠ [])
    (hdig : id0.data.all Char.isDigit = true) (hsemi : ';' ∉ body.data)
    (htrim : pyStrip body = body) :
    strat1Entity (slabText id0 body) = parseEntity id0 body := by
  unfold strat1Entity
  rw [parseSlab1_slab id0 body hid hdig hsemi htrim]

lemma strat2_slab (id0 body : String) (hid : id0.data ≠ [])
    (hdig : id0.data.all Char.isDigit = true) (hsemi : ';' ∉ body.data)
    (hhash : '#' ∉ body.data) (htrim : pyStrip body = body) :
    strat2Entity (slabText id0 body) = parseEntity id0 body := by
  have hb1 : body.data.dropWhile Char.isWhitespace = body.data :=
    trim_fix_left (congrArg String.data htrim)
  have hb2 : body.data.reverse.dropWhile Char.isWhitespace = body.data.reverse :=
    trim_fix_right (congrArg String.data htrim)
  have hshape : (slabText id0 body).data =
      ('#' :: (id0.data ++ [' ', '='])) ++ (' ' :: (body.data ++ [';'])) := by
    simp [slabText, slabTail]
  have hrest : ∀ c ∈ (' ' :: (body.data ++ [';'])), c ≠ '#' := by
    intro c hc
    rcases List.mem_cons.mp hc with rfl | hc2
    · decide
    · rcases List.mem_append.mp hc2 with hc3 | hc3
      · exact fun he => hhash (he ▸ hc3)
      · rw [List.mem_singleton.mp hc3]; decide
  have hrepl : replaceAll (('#' :: id0.data) ++ [' ', '=']) (slabText id0 body).data =
      ' ' :: (body.data ++ [';']) := by
    rw [hshape]
    exact replaceAll_head_occurrence hrest
  have hstrip : stripSpaceSemi (' ' :: (body.data ++ [';'])) = body.data :=
    stripSpaceSemi_body hb1 hb2 hsemi
  unfold strat2Entity
  rw [findHashId_slab id0 body hid hdig]
  show parseEntity id0 (pyStrip ⟨stripSpaceSemi (replaceAll _ _)⟩) = _
  rw [hrepl, hstrip, strEta, htrim]

/-- C7 (amended): for a record written in the canonical single-space form
`#<id> = <body>;` with a digit id and a body free of `#` and `;` and of
leading/trailing whitespace, the two record-delimiter strategies agree:
both produce exactly `parseEntity id body`, hence entities of identical
type and identical parameter count. Outside this canonical form the two
strategies can disagree (see the counterexample). -/
theorem c7_delimiter_strategies_agree (id0 body : String) (hid : id0.data ≠ [])
    (hdig : id0.data.all Char.isDigit = true) (hsemi : ';' ∉ body.data)
    (hhash : '#' ∉ body.data) (htrim : pyStrip body = body) :
    strat1Entity (slabText id0 body) = parseEntity id0 body ∧
    strat2Entity (slabText id0 body) = parseEntity id0 body :=
  ⟨strat1_slab id0 body hid hdig hsemi htrim,
   strat2_slab id0 body hid hdig hsemi hhash htrim⟩

/-- The record `#10= FOO('A');` written without a space before `=`. -/
def ceSlab : String := "#10= FOO(" ++ sq ++ "A" ++ sq ++ ");"

/-- Counterexample to C7 as stated: on `#10= FOO('A');` — a record matched
by both top-level record patterns — strategy 1 yields a `FOO` entity with
one parameter, while strategy 2 fails to strip the `#10 =` prefix (the
replace target requires a single space before `=`), leaves a body starting
with `#`, and yields no entity at all. -/
theorem c7_delimiter_strategies_counterexample :
    strat1Entity ceSlab =
      some ⟨"10", "FOO", [PyVal.vstr "A"], "#10 = FOO(" ++ sq ++ "A" ++ sq ++ ");"⟩ ∧
    strat2Entity ceSlab = none := by
  constructor
  · decide
  · decide

/-- The body `FOO('A')`. -/
def bodyW : String := "FOO(" ++ sq ++ "A" ++ sq ++ ")"

/-- Witness for C7 (amended) on the canonical record `#10 = FOO('A');`. -/
theorem c7_delimiter_strategies_agree_witness :
    strat1Entity (slabText "10" bodyW) = parseEntity "10" bodyW ∧
    strat2Entity (slabText "10" bodyW) = parseEntity "10" bodyW :=
  c7_delimiter_strategies_agree "10" bodyW (by decide) (by decide) (by decide)
    (by decide) (by decide)

end BomCad
